import Mathlib

/-!
Verification of the chiprec core (`chiprec.py`): the firmware-to-evidence
extractor `find_used_registers` and the candidate-narrowing matcher
`find_devices` / `dict_intersection_merge` / `find_devices_by_register`.

The embedding mirrors the Python source line by line:
  * firmware is a byte list; `bytesAt fw o n` models the slice
    `firmware[o : o + n]` (truncating at the end of the buffer) and
    `fromLE` models `int.from_bytes(-, "little")` of such a slice;
  * the outer loop `for fw_offset in range(2, len(firmware), 2)` is a fold
    over `pyRange2 2 fw.length`;
  * the inner forward scan is `innerScanS`, which threads the list
    `registers_containing_addr` (here `tracked`), the evidence collected so
    far, and whether the scan broke out early;
  * the Python result container is a `set`; the embedding keeps the
    discovery-order duplicate-free list `usedRegistersList` (first-insertion
    order) and models the value the Python function actually returns as its
    `Finset`, `find_used_registers`, which carries no order;
  * the catalog (an SQLite table in the source) is a list of joined rows,
    and `find_devices_by_register` is the WHERE clause of the query plus the
    dict comprehension that builds `{device_id: [[p_name, r_name, access]]}`;
  * `find_devices` folds `findDevicesStep` over the evidence with the
    `None`-means-unconstrained state of the source (`Option`).
-/

namespace Chiprec

/-- Access kind of one evidence item: the strings "read" / "write" of the
source. -/
inductive Access where
  | read
  | write
deriving DecidableEq, Repr

/-- One evidence item `(addr, access)` as pushed into `regs`. -/
abbrev Ev := Nat × Access

/-- Python slice `fw[o : o + n]`: stops at the end of the buffer. -/
def bytesAt (fw : List Nat) (o n : Nat) : List Nat :=
  (fw.drop o).take n

/-- Little-endian value of a byte list, `int.from_bytes(bs, "little")`.
Each element is reduced mod 256 so that the function agrees with Python on
byte values even for out-of-range list entries. -/
def fromLE (bs : List Nat) : Nat :=
  bs.foldr (fun b acc => b % 256 + 256 * acc) 0

/-- The 16-bit little-endian read `int.from_bytes(fw[o:o+2], "little")`. -/
def u16 (fw : List Nat) (o : Nat) : Nat :=
  fromLE (bytesAt fw o 2)

/-- The 32-bit little-endian read `int.from_bytes(fw[o:o+4], "little")`. -/
def u32 (fw : List Nat) (o : Nat) : Nat :=
  fromLE (bytesAt fw o 4)

/-- Python `range(start, stop, 2)` as a list. -/
def pyRange2 (start stop : Nat) : List Nat :=
  (List.range ((stop - start + 1) / 2)).map (fun i => start + 2 * i)

/-- The address classification of the source: the Cortex-M peripheral
window `[0x40000000, 0x60000000)` or the system window
`[0xA0000000, 0xE0000000)`. -/
def inWindow (addr : Nat) : Bool :=
  (decide (0x40000000 ≤ addr) && decide (addr < 0x60000000))
    || (decide (0xA0000000 ≤ addr) && decide (addr < 0xE0000000))

/-- Model of `regs.add(x)` on a `set`, kept as a first-insertion-order
duplicate-free list. -/
def pushEv (ev : List Ev) (x : Ev) : List Ev :=
  if x ∈ ev then ev else ev ++ [x]

/-- Result of one inner-loop iteration body: continue with updated state, or
break out of the forward scan (the final `else: break` of the source; the
evidence is unchanged on a break). -/
inductive StepRes where
  | cont (tracked : List Nat) (ev : List Ev) : StepRes
  | stop : StepRes
deriving DecidableEq, Repr

/-- Body of the inner forward scan of `find_used_registers`
(chiprec.py lines 56-116) for the halfword `instr2`, acting on the tracked
register list `registers_containing_addr` and the evidence set. -/
def innerStep (data instr2 : Nat) (tracked : List Nat) (ev : List Ev) : StepRes :=
  if instr2 &&& 0xF800 = 0x6800 then
    -- LDR reg+imm
    if (instr2 >>> 3) &&& 0x07 ∈ tracked then
      StepRes.cont tracked
        (if inWindow (data + (((instr2 >>> 6) &&& 0x1F) <<< 2)) then
          pushEv ev (data + (((instr2 >>> 6) &&& 0x1F) <<< 2), Access.read)
        else ev)
    else if instr2 &&& 0x07 ∈ tracked then
      StepRes.cont (tracked.erase (instr2 &&& 0x07)) ev
    else
      StepRes.cont tracked ev
  else if instr2 &&& 0xF800 = 0x6000 then
    -- STR reg+imm
    if (instr2 >>> 3) &&& 0x07 ∈ tracked then
      StepRes.cont tracked
        (if inWindow (data + (((instr2 >>> 6) &&& 0x1F) <<< 2)) then
          pushEv ev (data + (((instr2 >>> 6) &&& 0x1F) <<< 2), Access.write)
        else ev)
    else
      StepRes.cont tracked ev
  else if instr2 &&& 0xF800 = 0x8000 then
    -- STRH reg+imm
    if (instr2 >>> 3) &&& 0x07 ∈ tracked then
      StepRes.cont tracked
        (if inWindow (data + (((instr2 >>> 6) &&& 0x1F) <<< 1)) then
          pushEv ev (data + (((instr2 >>> 6) &&& 0x1F) <<< 1), Access.write)
        else ev)
    else
      StepRes.cont tracked ev
  else if instr2 &&& 0xF800 = 0x7000 then
    -- STRB reg+imm
    if (instr2 >>> 3) &&& 0x07 ∈ tracked then
      StepRes.cont tracked
        (if inWindow (data + ((instr2 >>> 6) &&& 0x1F)) then
          pushEv ev (data + ((instr2 >>> 6) &&& 0x1F), Access.write)
        else ev)
    else
      StepRes.cont tracked ev
  else if instr2 &&& 0xF800 = 0x4800 then
    -- other LDR PC+imm overwriting a tracked register
    if (instr2 >>> 8) &&& 0x07 ∈ tracked then
      StepRes.cont (tracked.erase ((instr2 >>> 8) &&& 0x07)) ev
    else
      StepRes.cont tracked ev
  else if instr2 &&& 0xFE00 = 0x1A00 then
    -- SUBS overwriting a tracked register
    if instr2 &&& 0x07 ∈ tracked then
      StepRes.cont (tracked.erase (instr2 &&& 0x07)) ev
    else
      StepRes.cont tracked ev
  else if instr2 &&& 0xF800 = 0x2000 then
    -- MOVS imm overwriting a tracked register
    if (instr2 >>> 8) &&& 0x07 ∈ tracked then
      StepRes.cont (tracked.erase ((instr2 >>> 8) &&& 0x07)) ev
    else
      StepRes.cont tracked ev
  else
    StepRes.stop

/-- The inner forward scan of `find_used_registers` (chiprec.py lines
48-116): `prev` is the outer loop's stale `prev_instr` value (the source
re-tests it inside the loop), `data` the literal value being tracked.
Returns the tracked list, the evidence, and whether the loop broke early. -/
def innerScanS (fw : List Nat) (prev data : Nat) :
    List Nat → List Nat → List Ev → List Nat × List Ev × Bool
  | [], tracked, ev => (tracked, ev, false)
  | o2 :: rest, tracked, ev =>
    if tracked = [] then (tracked, ev, true)
    else if prev &&& 0xE000 = 0xE000 then (tracked, ev, true)
    else
      match innerStep data (u16 fw o2) tracked ev with
      | StepRes.stop => (tracked, ev, true)
      | StepRes.cont tracked2 ev2 => innerScanS fw prev data rest tracked2 ev2

/-- The literal-pool slot offset of chiprec.py line 41:
`data_offset = (fw_offset + rb) // 4 * 4 + 4` with `rb = (instr & 0xFF) << 2`. -/
def literalSlot (o instr : Nat) : Nat :=
  (o + ((instr &&& 0xFF) <<< 2)) / 4 * 4 + 4

/-- One iteration of the outer loop of `find_used_registers` (chiprec.py
lines 26-116) at offset `o`, threading the evidence list. -/
def outerStep (fw : List Nat) (ev : List Ev) (o : Nat) : List Ev :=
  if u16 fw o &&& 0xF800 = 0x4800 then
    if u16 fw (o - 2) &&& 0xE000 = 0xE000 then ev
    else
      (innerScanS fw (u16 fw (o - 2)) (u32 fw (literalSlot o (u16 fw o)))
        (pyRange2 (o + 2) fw.length) [(u16 fw o >>> 8) &&& 0x07] ev).2.1
  else ev

/-- Evidence recorded by `find_used_registers`, in discovery order
(first-insertion order of `regs.add`), one entry per distinct
`(addr, access)` pair. -/
def usedRegistersList (fw : List Nat) : List Ev :=
  (pyRange2 2 fw.length).foldl (outerStep fw) []

/-- The value `find_used_registers` actually returns: a Python `set`, i.e.
an unordered finite set of `(addr, access)` pairs. -/
def find_used_registers (fw : List Nat) : Finset Ev :=
  (usedRegistersList fw).toFinset

/-! Variant with the inner WidePrefix re-test removed (chiprec.py lines
53-54), for the extensional-equality claim about that dead check. -/

/-- The inner forward scan with the stale `prev_instr` re-test removed. -/
def innerScanSNS (fw : List Nat) (data : Nat) :
    List Nat → List Nat → List Ev → List Nat × List Ev × Bool
  | [], tracked, ev => (tracked, ev, false)
  | o2 :: rest, tracked, ev =>
    if tracked = [] then (tracked, ev, true)
    else
      match innerStep data (u16 fw o2) tracked ev with
      | StepRes.stop => (tracked, ev, true)
      | StepRes.cont tracked2 ev2 => innerScanSNS fw data rest tracked2 ev2

/-- Outer iteration using the scan without the inner stale re-test. -/
def outerStepNS (fw : List Nat) (ev : List Ev) (o : Nat) : List Ev :=
  if u16 fw o &&& 0xF800 = 0x4800 then
    if u16 fw (o - 2) &&& 0xE000 = 0xE000 then ev
    else
      (innerScanSNS fw (u32 fw (literalSlot o (u16 fw o)))
        (pyRange2 (o + 2) fw.length) [(u16 fw o >>> 8) &&& 0x07] ev).2.1
  else ev

/-- Evidence list of the variant without the inner stale re-test. -/
def usedRegistersListNS (fw : List Nat) : List Ev :=
  (pyRange2 2 fw.length).foldl (outerStepNS fw) []

/-- Returned set of the variant without the inner stale re-test. -/
def find_used_registersNS (fw : List Nat) : Finset Ev :=
  (usedRegistersListNS fw).toFinset

/-! The matcher side: catalog rows and the dict-of-lists machinery. -/

/-- One row of the catalog query `register JOIN peripheral`: the columns
`find_devices_by_register` selects and filters on. -/
structure Row where
  device_id : Nat
  peripheral_name : String
  register_name : String
  register_address : Nat
  register_size : Nat
deriving DecidableEq, Repr

/-- One hit record `[peripheral_name, register_name, access]` of the value
lists built by `find_devices_by_register`. -/
structure Hit where
  peripheral_name : String
  register_name : String
  access : Access
deriving DecidableEq, Repr

/-- The running `matchs` dict: device id to list of hit records, in Python
dict insertion order. -/
abbrev DeviceDict := List (Nat × List Hit)

/-- Keys of a dict, in order. -/
def dictKeys (d : DeviceDict) : List Nat :=
  d.map (fun p => p.1)

/-- Python `d[k] = v`: overwrite in place when the key exists, else append. -/
def dictInsert (d : DeviceDict) (k : Nat) (v : List Hit) : DeviceDict :=
  if d.any (fun p => p.1 == k) then
    d.map (fun p => if p.1 == k then (k, v) else p)
  else
    d ++ [(k, v)]

/-- Python `d.get(k)` on an insertion-ordered dict. -/
def dictGet (d : DeviceDict) (k : Nat) : Option (List Hit) :=
  (d.find? (fun p => p.1 == k)).map (fun p => p.2)

/-- The WHERE clause of the query in `find_devices_by_register`
(chiprec.py lines 144-146): `register_address <= addr`, the coarse
pre-filter `register_address + 32 > addr` (commented in the source as a
query performance optimisation), and the exact range test
`register_address + register_size / 8 > addr` (SQLite integer division). -/
def rowMatches (r : Row) (addr : Nat) : Bool :=
  decide (r.register_address ≤ addr)
    && decide (r.register_address + 32 > addr)
    && decide (r.register_address + r.register_size / 8 > addr)

/-- `find_devices_by_register` (chiprec.py lines 136-149): the rows passing
the WHERE clause, folded into the dict comprehension
`{dev_id: [attr + [access]] for dev_id, *attr in res.fetchall()}` (a later
row with the same device id overwrites the value). -/
def find_devices_by_register (cat : List Row) (addr : Nat) (access : Access) :
    DeviceDict :=
  (cat.filter (fun r => rowMatches r addr)).foldl
    (fun d r => dictInsert d r.device_id [⟨r.peripheral_name, r.register_name, access⟩])
    []

/-- `dict_intersection_merge` (chiprec.py lines 121-133): `none` means
"all"; otherwise keep the keys of `d1` that are keys of `d2`, in order,
concatenating the value lists. -/
def dict_intersection_merge (d1 : Option DeviceDict) (d2 : DeviceDict) : DeviceDict :=
  match d1 with
  | none => d2
  | some d =>
    d.filterMap (fun p =>
      match dictGet d2 p.1 with
      | none => none
      | some v2 => some (p.1, p.2 ++ v2))

/-- One iteration of the loop in `find_devices` (chiprec.py lines 157-166):
skip the evidence item on a catalog miss or on an empty intersection,
otherwise replace the running state. -/
def findDevicesStep (cat : List Row) (st : Option DeviceDict) (e : Ev) :
    Option DeviceDict :=
  if find_devices_by_register cat e.1 e.2 = [] then st
  else if dict_intersection_merge st (find_devices_by_register cat e.1 e.2) = [] then st
  else some (dict_intersection_merge st (find_devices_by_register cat e.1 e.2))

/-- `find_devices` (chiprec.py lines 152-167), over the evidence in the
order the caller iterates it; the initial state is the `None` sentinel
("unconstrained"). -/
def find_devices (cat : List Row) (regs : List Ev) : Option DeviceDict :=
  regs.foldl (findDevicesStep cat) none

/-- Model of `matchs.items()` at chiprec.py line 196: on the `None` that
`find_devices` returns when no evidence ever matched, the attribute access
raises `AttributeError`; the fallible call is modelled as `Option`, `none`
standing for the uncaught exception. -/
def dict_items : Option DeviceDict → Option DeviceDict
  | none => none
  | some d => some d

/-! Claim-side (specification) definitions, kept separate from the
embedding above so the two can be compared. -/

/-- Rounding down to a multiple of 4, as the specification words the
literal-slot computation (align4 rounds down to a multiple of 4). -/
def align4 (x : Nat) : Nat := x - x % 4

/-- The scan the outer-loop claim describes: every halfword-aligned offset
of the entire image, offset 0 included, is a candidate position. For the
firmware it is compared on, the halfword preceding offset 0 is read as 0 by
the source (empty negative slice); the comparison input below is chosen so
that the candidate at offset 0 is accepted under either convention. -/
def usedRegistersListFrom0 (fw : List Nat) : List Ev :=
  (pyRange2 0 fw.length).foldl (outerStep fw) []

/-- Exact half-open containment of the claims: device `dev` owns a register
row whose byte range `[address, address + size/8)` contains the evidence
address. -/
def coversExact (cat : List Row) (dev : Nat) (e : Ev) : Bool :=
  cat.any (fun r =>
    r.device_id == dev && decide (r.register_address ≤ e.1)
      && decide (e.1 < r.register_address + r.register_size / 8))

/-- Device `dev` exactly covers every evidence pair of the list. -/
def coversAllExact (cat : List Row) (dev : Nat) (es : List Ev) : Bool :=
  es.all (fun e => coversExact cat dev e)

/-- Device `dev` has a row passing the full WHERE clause of the lookup for
the given address (the matching notion the code actually computes). -/
def devMatches (cat : List Row) (dev addr : Nat) : Bool :=
  cat.any (fun r => r.device_id == dev && rowMatches r addr)

/-- Device `dev` passes the lookup for every evidence pair of the list. -/
def matchesAll (cat : List Row) (dev : Nat) (es : List Ev) : Bool :=
  es.all (fun e => devMatches cat dev e.1)

/-! Concrete inputs used by the closed theorems below. -/

/-- Firmware with a literal load at offset 2 (`0x4801`, LDR r0 relative to
the program counter) whose literal word at bytes 8-11 is `0x40000000`,
followed by `LDR r1, [r0]` and `LDR r2, [r0, 4]`: two distinct evidence
items in a known discovery order. -/
def fwTwo : List Nat :=
  [0x00, 0x00, 0x01, 0x48, 0x01, 0x68, 0x42, 0x68, 0x00, 0x00, 0x00, 0x40]

/-- Firmware whose only literal load (`0x4800`) sits at offset 0, followed
at offset 2 by `LDR r0, [r0]`; the literal word at bytes 4-7 is
`0x40000000`. A scan that starts at offset 0 recovers one read; the source
scan starts at offset 2 and recovers nothing. -/
def fwAtZero : List Nat :=
  [0x00, 0x48, 0x00, 0x68, 0x00, 0x00, 0x00, 0x40]

/-- A catalog of one device whose single register does not contain the
address `0x50000000`. -/
def catMiss : List Row :=
  [⟨1, "GPIO", "ODR", 0x48000014, 32⟩]

/-- A catalog of one device with a single 512-bit (64-byte) register at
`0x40000000`. -/
def catWide : List Row :=
  [⟨1, "CRYP", "KEY", 0x40000000, 512⟩]

/-- A catalog of two devices, each with one 32-bit register; only device 1
covers `0x40000000`. -/
def catTwo : List Row :=
  [⟨1, "TIM", "CR", 0x40000000, 32⟩, ⟨2, "UART", "DR", 0x50000000, 32⟩]

/-- C1: on a firmware whose scan records `(0x40000000, read)` before
`(0x40000004, read)`, the discovery-order evidence list is duplicate-free
and ordered, but the value `find_used_registers` returns is a `set`: it
equals the set of the reversed list just as well, so the function's result
carries no discovery order for the matcher to consume, against the
docstring of the source (addresses ordered by position in file). -/
theorem evidence_set_discards_discovery_order :
    usedRegistersList fwTwo = [(0x40000000, Access.read), (0x40000004, Access.read)] ∧
    (usedRegistersList fwTwo).Nodup ∧
    find_used_registers fwTwo =
      ([(0x40000004, Access.read), (0x40000000, Access.read)] : List Ev).toFinset := by
  decide

/-- C2: when no evidence ever matches the catalog (empty firmware, and also
a nonempty evidence list every item of which misses), `find_devices`
returns the `None` sentinel, and the presentation step `matchs.items()`
fails on it instead of reporting "no candidate devices identified". -/
theorem unidentified_firmware_crashes_presentation :
    usedRegistersList [] = [] ∧
    find_devices catMiss [] = none ∧
    dict_items (find_devices catMiss []) = none ∧
    find_devices catMiss [(0x50000000, Access.read)] = none ∧
    dict_items (find_devices catMiss [(0x50000000, Access.read)]) = none := by
  decide

/-- C3 counterexample: two inputs on which the claim as stated fails.
With a 512-bit register, device 1 is the only device of the catalog and its
range exactly covers the single evidence pair, yet `find_devices` ends
unconstrained (`none`), not with device 1 as sole candidate, because the
coarse pre-filter drops the lookup. With an empty evidence list and a
one-device catalog, the coverage hypothesis holds vacuously, yet
`find_devices` again returns `none` rather than that device. -/
theorem unique_cover_claim_fails :
    (coversAllExact catWide 1 [(0x40000028, Access.read)] = true ∧
      catWide.map (fun r => r.device_id) = [1] ∧
      find_devices catWide [(0x40000028, Access.read)] = none) ∧
    (coversAllExact catMiss 1 [] = true ∧
      catMiss.map (fun r => r.device_id) = [1] ∧
      find_devices catMiss [] = none) := by
  decide

/-- C4: a register of 512 bits covers `0x40000028` under the exact
half-open range test (its byte range spans 64 bytes), but the lookup
returns nothing for that address: the coarse pre-filter
`register_address + 32 > addr` excludes a register that passes the exact
test, so the exact test is not authoritative in the code. -/
theorem prefilter_excludes_wide_register :
    coversExact catWide 1 (0x40000028, Access.read) = true ∧
    rowMatches ⟨1, "CRYP", "KEY", 0x40000000, 512⟩ 0x40000028 = false ∧
    find_devices_by_register catWide 0x40000028 Access.read = [] ∧
    find_devices catWide [(0x40000028, Access.read)] = none := by
  decide

/-- C9 counterexample: offset 0 is not among the offsets the outer scan
visits (`range(2, len(firmware), 2)` starts at 2), and on a firmware whose
only literal load sits at offset 0 the source recovers nothing while the
claimed scan over every halfword-aligned offset, offset 0 included,
recovers one read evidence item. -/
theorem offset_zero_not_scanned :
    (0 : Nat) ∉ pyRange2 2 fwAtZero.length ∧
    usedRegistersList fwAtZero = [] ∧
    usedRegistersListFrom0 fwAtZero = [(0x40000000, Access.read)] := by
  decide

/-! The inner stale WidePrefix re-test is dead code: the scan reaches the
inner loop only when the outer check on the same value already failed. -/

lemma innerScanS_eq_NS (fw : List Nat) (prev data : Nat)
    (h : ¬ prev &&& 0xE000 = 0xE000) :
    ∀ (offs tracked : List Nat) (ev : List Ev),
      innerScanS fw prev data offs tracked ev = innerScanSNS fw data offs tracked ev := by
  intro offs
  induction offs with
  | nil => intro t ev; rfl
  | cons o rest ih =>
    intro t ev
    by_cases ht : t = []
    · simp [innerScanS, innerScanSNS, ht]
    · simp only [innerScanS, innerScanSNS, if_neg ht, if_neg h]
      cases innerStep data (u16 fw o) t ev with
      | stop => rfl
      | cont t2 ev2 => exact ih t2 ev2

lemma outerStep_eq_NS (fw : List Nat) (ev : List Ev) (o : Nat) :
    outerStep fw ev o = outerStepNS fw ev o := by
  unfold outerStep outerStepNS
  by_cases h1 : u16 fw o &&& 0xF800 = 0x4800
  · rw [if_pos h1, if_pos h1]
    by_cases h2 : u16 fw (o - 2) &&& 0xE000 = 0xE000
    · rw [if_pos h2, if_pos h2]
    · rw [if_neg h2, if_neg h2, innerScanS_eq_NS fw _ _ h2]
  · rw [if_neg h1, if_neg h1]

lemma foldl_congr_fn {α β : Type} (f g : α → β → α) (h : ∀ a b, f a b = g a b) :
    ∀ (l : List β) (a : α), l.foldl f a = l.foldl g a := by
  intro l
  induction l with
  | nil => intro a; rfl
  | cons x xs ih => intro a; rw [List.foldl_cons, List.foldl_cons, h, ih]

/-- C10: the stale WidePrefix re-test inside the forward scan (chiprec.py
lines 53-54) checks the outer candidate's preceding halfword, which already
failed that very test when the candidate was accepted, so it never fires:
`find_used_registers` is extensionally equal to the same function with the
inner check removed, on the discovery-order list and on the returned set. -/
theorem inner_wideprefix_check_is_dead (fw : List Nat) :
    usedRegistersList fw = usedRegistersListNS fw ∧
    find_used_registers fw = find_used_registersNS fw := by
  have h : usedRegistersList fw = usedRegistersListNS fw :=
    foldl_congr_fn _ _ (outerStep_eq_NS fw) _ _
  exact ⟨h, congrArg List.toFinset h⟩

/-! The literal-pool slot computation. -/

/-- C6: an accepted candidate at offset `o` reads its literal word at
`align4(o + imm8*4) + 4` (the source computes `(o + (imm8 << 2)) // 4 * 4 + 4`),
and the tracked `data` value is the little-endian 32-bit read at that slot. -/
theorem literal_slot_formula (fw : List Nat) (ev : List Ev) (o : Nat)
    (h1 : u16 fw o &&& 0xF800 = 0x4800)
    (h2 : ¬ u16 fw (o - 2) &&& 0xE000 = 0xE000) :
    literalSlot o (u16 fw o) = align4 (o + (u16 fw o &&& 0xFF) * 4) + 4 ∧
    outerStep fw ev o =
      (innerScanS fw (u16 fw (o - 2))
        (u32 fw (align4 (o + (u16 fw o &&& 0xFF) * 4) + 4))
        (pyRange2 (o + 2) fw.length) [(u16 fw o >>> 8) &&& 0x07] ev).2.1 := by
  have hs : literalSlot o (u16 fw o) = align4 (o + (u16 fw o &&& 0xFF) * 4) + 4 := by
    unfold literalSlot align4
    rw [Nat.shiftLeft_eq]
    norm_num
    omega
  refine ⟨hs, ?_⟩
  unfold outerStep
  rw [if_pos h1, if_neg h2, hs]

/-- Witness for the slot formula at the accepted candidate of `fwTwo`. -/
theorem literal_slot_formula_witness :
    literalSlot 2 (u16 fwTwo 2) = align4 (2 + (u16 fwTwo 2 &&& 0xFF) * 4) + 4 ∧
    outerStep fwTwo [] 2 =
      (innerScanS fwTwo (u16 fwTwo 0)
        (u32 fwTwo (align4 (2 + (u16 fwTwo 2 &&& 0xFF) * 4) + 4))
        (pyRange2 4 fwTwo.length) [(u16 fwTwo 2 >>> 8) &&& 0x07] []).2.1 :=
  literal_slot_formula fwTwo [] 2 (by decide) (by decide)

/-! Robustness of the scan on truncated and odd-length inputs. -/

lemma inWindow_false_of_lt (addr : Nat) (h : addr < 0x40000000) :
    inWindow addr = false := by
  simp only [inWindow, Bool.or_eq_false_iff, Bool.and_eq_false_iff,
    decide_eq_false_iff_not]
  omega

/-- One inner-loop iteration either leaves the evidence unchanged or pushes
a single pair whose address is within 124 of `data`, is inside a peripheral
window, and whose base register field is currently tracked. -/
lemma innerStep_ev_cases (data instr2 : Nat) (t : List Nat) (ev : List Ev)
    (t2 : List Nat) (ev2 : List Ev)
    (h : innerStep data instr2 t ev = StepRes.cont t2 ev2) :
    ev2 = ev ∨ ∃ addr acc, inWindow addr = true ∧ addr ≤ data + 124 ∧
      ev2 = pushEv ev (addr, acc) ∧ ((instr2 >>> 3) &&& 0x07) ∈ t := by
  have h31 : (instr2 >>> 6) &&& 0x1F ≤ 31 := Nat.and_le_right
  unfold innerStep at h
  split_ifs at h <;>
    first
    | exact StepRes.noConfusion h
    | (injection h with hA hB; subst hB; left; rfl)
    | (injection h with hA hB; subst hB; right;
       refine ⟨_, _, by assumption, ?_, rfl, by assumption⟩;
       (try rw [Nat.shiftLeft_eq]); norm_num; omega)

lemma fromLE_lt (bs : List Nat) : fromLE bs < 256 ^ bs.length := by
  induction bs with
  | nil => decide
  | cons b rest ih =>
    have h1 : fromLE (b :: rest) = b % 256 + 256 * fromLE rest := rfl
    rw [h1, List.length_cons, pow_succ]
    have hb : b % 256 < 256 := Nat.mod_lt _ (by norm_num)
    generalize (256 : Nat) ^ rest.length = X at ih ⊢
    omega

/-- A 4-byte read whose slot sticks out past the end of the buffer sees at
most 3 bytes, hence a value below 2^24. -/
lemma truncated_u32_small (fw : List Nat) (s : Nat) (h : fw.length < s + 4) :
    u32 fw s < 0x1000000 := by
  have hlen : (bytesAt fw s 4).length ≤ 3 := by
    simp only [bytesAt, List.length_take, List.length_drop]
    omega
  have hlt := fromLE_lt (bytesAt fw s 4)
  have hle : (256 : Nat) ^ (bytesAt fw s 4).length ≤ 256 ^ 3 :=
    Nat.pow_le_pow_right (by norm_num) hlen
  calc u32 fw s < 256 ^ (bytesAt fw s 4).length := hlt
    _ ≤ 256 ^ 3 := hle
    _ = 0x1000000 := by norm_num

/-- A forward scan whose tracked value is too small to reach the peripheral
windows records nothing. -/
lemma innerScanS_ev_const_of_small (fw : List Nat) (prev data : Nat)
    (h : data < 0x3FFFFF00) :
    ∀ (offs t : List Nat) (ev : List Ev),
      (innerScanS fw prev data offs t ev).2.1 = ev := by
  intro offs
  induction offs with
  | nil => intro t ev; rfl
  | cons o rest ih =>
    intro t ev
    by_cases ht : t = []
    · simp [innerScanS, ht]
    · by_cases hp : prev &&& 0xE000 = 0xE000
      · simp [innerScanS, ht, hp]
      · simp only [innerScanS, if_neg ht, if_neg hp]
        cases hstep : innerStep data (u16 fw o) t ev with
        | stop => rfl
        | cont t2 ev2 =>
          rcases innerStep_ev_cases _ _ _ _ _ _ hstep with he | ⟨addr, acc, hw, hb, _, _⟩
          · rw [ih t2 ev2, he]
          · exfalso
            have hf : inWindow addr = false := inWindow_false_of_lt addr (by omega)
            rw [hw] at hf
            exact Bool.noConfusion hf

/-- C8: the scan is total on every byte list (it is a Lean function on
arbitrary `List Nat`, empty and odd-length lists included, with the Python
slice semantics of `bytesAt`), and, as the claim states: a candidate whose
4-byte literal slot sticks out past the end of the buffer contributes no
evidence item at all, since its truncated value plus any imm5-scaled offset
stays below the peripheral windows, and a candidate position holding only a
trailing odd byte is never a literal load. -/
theorem truncated_reads_produce_no_evidence (fw : List Nat) (ev : List Ev) (o : Nat) :
    usedRegistersList [] = [] ∧
    (fw.length < literalSlot o (u16 fw o) + 4 → outerStep fw ev o = ev) ∧
    (o + 1 = fw.length → outerStep fw ev o = ev) := by
  refine ⟨by decide, ?_, ?_⟩
  · intro h
    unfold outerStep
    by_cases h1 : u16 fw o &&& 0xF800 = 0x4800
    · rw [if_pos h1]
      by_cases h2 : u16 fw (o - 2) &&& 0xE000 = 0xE000
      · rw [if_pos h2]
      · rw [if_neg h2]
        have hsmall : u32 fw (literalSlot o (u16 fw o)) < 0x3FFFFF00 := by
          have := truncated_u32_small fw (literalSlot o (u16 fw o)) h
          omega
        exact innerScanS_ev_const_of_small fw _ _ hsmall _ _ _
    · rw [if_neg h1]
  · intro h
    have hu : u16 fw o < 256 := by
      have hlen : (bytesAt fw o 2).length ≤ 1 := by
        simp only [bytesAt, List.length_take, List.length_drop]
        omega
      have hlt := fromLE_lt (bytesAt fw o 2)
      have hle : (256 : Nat) ^ (bytesAt fw o 2).length ≤ 256 ^ 1 :=
        Nat.pow_le_pow_right (by norm_num) hlen
      calc u16 fw o < 256 ^ (bytesAt fw o 2).length := hlt
        _ ≤ 256 ^ 1 := hle
        _ = 256 := by norm_num
    have h1 : ¬ u16 fw o &&& 0xF800 = 0x4800 := by
      have hle : u16 fw o &&& 0xF800 ≤ u16 fw o := Nat.and_le_left
      omega
    unfold outerStep
    rw [if_neg h1]

/-! Register tracking: the tracked set only shrinks, kills are permanent. -/

lemma innerStep_shrinks (data instr2 : Nat) (t : List Nat) (ev : List Ev)
    (t2 : List Nat) (ev2 : List Ev)
    (h : innerStep data instr2 t ev = StepRes.cont t2 ev2) : t2.Sublist t := by
  unfold innerStep at h
  split_ifs at h <;>
    first
    | exact StepRes.noConfusion h
    | (injection h with hA hB; subst hA; exact List.Sublist.refl _)
    | (injection h with hA hB; subst hA; exact List.erase_sublist _ _)

lemma innerScanS_tracked_shrinks (fw : List Nat) (prev data : Nat) :
    ∀ (offs t : List Nat) (ev : List Ev),
      ((innerScanS fw prev data offs t ev).1).Sublist t := by
  intro offs
  induction offs with
  | nil => intro t ev; exact List.Sublist.refl _
  | cons o rest ih =>
    intro t ev
    by_cases ht : t = []
    · simp only [innerScanS, if_pos ht]
      exact List.Sublist.refl _
    · by_cases hp : prev &&& 0xE000 = 0xE000
      · simp only [innerScanS, if_neg ht, if_pos hp]
        exact List.Sublist.refl _
      · simp only [innerScanS, if_neg ht, if_neg hp]
        cases hstep : innerStep data (u16 fw o) t ev with
        | stop => exact List.Sublist.refl _
        | cont t2 ev2 =>
          exact (ih t2 ev2).trans (innerStep_shrinks _ _ _ _ _ _ hstep)

lemma and_f800_of_fe00 (x : Nat) (h : x &&& 0xFE00 = 0x1A00) :
    x &&& 0xF800 = 0x1800 := by
  have e : ((0xFE00 : Nat) &&& 0xF800) = 0xF800 := by decide
  calc x &&& 0xF800 = x &&& (0xFE00 &&& 0xF800) := by rw [e]
    _ = x &&& 0xFE00 &&& 0xF800 := (Nat.and_assoc _ _ _).symm
    _ = 0x1A00 &&& 0xF800 := by rw [h]
    _ = 0x1800 := by decide

lemma erase_not_mem_of_nodup {t : List Nat} (hn : t.Nodup) (a : Nat) :
    a ∉ t.erase a := by
  intro hc
  exact (hn.mem_erase_iff.mp hc).1 rfl

/-- Common shape of the overwrite branches: `if a ∈ t` then erase `a`. -/
lemma kill_branch {t t2 : List Nat} {ev ev2 : List Ev} {a : Nat} (hn : t.Nodup)
    (h : (if a ∈ t then StepRes.cont (t.erase a) ev else StepRes.cont t ev)
        = StepRes.cont t2 ev2) : a ∉ t2 := by
  by_cases hm : a ∈ t
  · rw [if_pos hm] at h
    injection h with hA hB
    subst hA
    exact erase_not_mem_of_nodup hn a
  · rw [if_neg hm] at h
    injection h with hA hB
    subst hA
    exact hm

lemma innerStep_kill_loadlit (data instr2 : Nat) (t : List Nat) (ev : List Ev)
    (t2 : List Nat) (ev2 : List Ev) (hn : t.Nodup)
    (hm : instr2 &&& 0xF800 = 0x4800)
    (h : innerStep data instr2 t ev = StepRes.cont t2 ev2) :
    ((instr2 >>> 8) &&& 0x07) ∉ t2 := by
  unfold innerStep at h
  simp only [hm] at h
  norm_num at h
  exact kill_branch hn h

lemma innerStep_kill_movs (data instr2 : Nat) (t : List Nat) (ev : List Ev)
    (t2 : List Nat) (ev2 : List Ev) (hn : t.Nodup)
    (hm : instr2 &&& 0xF800 = 0x2000)
    (h : innerStep data instr2 t ev = StepRes.cont t2 ev2) :
    ((instr2 >>> 8) &&& 0x07) ∉ t2 := by
  have hne6 : ¬ instr2 &&& 0xFE00 = 0x1A00 := by
    intro hc
    have := and_f800_of_fe00 _ hc
    omega
  unfold innerStep at h
  simp only [hm] at h
  norm_num at h
  rw [if_neg hne6] at h
  exact kill_branch hn h

lemma innerStep_kill_subs (data instr2 : Nat) (t : List Nat) (ev : List Ev)
    (t2 : List Nat) (ev2 : List Ev) (hn : t.Nodup)
    (hm : instr2 &&& 0xFE00 = 0x1A00)
    (h : innerStep data instr2 t ev = StepRes.cont t2 ev2) :
    (instr2 &&& 0x07) ∉ t2 := by
  have h8 := and_f800_of_fe00 _ hm
  unfold innerStep at h
  simp only [hm, h8] at h
  norm_num at h
  exact kill_branch hn h

lemma innerStep_kill_ldr_dest (data instr2 : Nat) (t : List Nat) (ev : List Ev)
    (t2 : List Nat) (ev2 : List Ev) (hn : t.Nodup)
    (hm : instr2 &&& 0xF800 = 0x6800)
    (hrn : ((instr2 >>> 3) &&& 0x07) ∉ t)
    (h : innerStep data instr2 t ev = StepRes.cont t2 ev2) :
    (instr2 &&& 0x07) ∉ t2 := by
  unfold innerStep at h
  simp only [hm] at h
  norm_num at h
  rw [if_neg hrn] at h
  exact kill_branch hn h

/-- C7: within one forward scan the tracked register set only ever shrinks
(each step yields a sublist, and so does the whole scan); new evidence is
recorded only when the instruction's base register field is currently
tracked; and each redefinition form of the source, a literal load, a MOVS,
a SUBS targeting a tracked register, or a word load whose destination is
tracked while its base is not, leaves its target outside the tracked set,
where, the set only shrinking, it never returns for the rest of the scan
(a register outside the tracked set is outside every later tracked set). -/
theorem tracked_register_kill (data instr2 : Nat) (t t2 : List Nat)
    (ev ev2 : List Ev) (fw : List Nat) (prev : Nat) (offs : List Nat) (r : Nat)
    (h1 : innerStep data instr2 t ev = StepRes.cont t2 ev2)
    (h2 : t.Nodup) (h3 : r ∉ t) :
    t2.Sublist t ∧
    ((innerScanS fw prev data offs t ev).1).Sublist t ∧
    (ev2 ≠ ev → ((instr2 >>> 3) &&& 0x07) ∈ t) ∧
    (instr2 &&& 0xF800 = 0x4800 → ((instr2 >>> 8) &&& 0x07) ∉ t2) ∧
    (instr2 &&& 0xF800 = 0x2000 → ((instr2 >>> 8) &&& 0x07) ∉ t2) ∧
    (instr2 &&& 0xFE00 = 0x1A00 → (instr2 &&& 0x07) ∉ t2) ∧
    (instr2 &&& 0xF800 = 0x6800 → ((instr2 >>> 3) &&& 0x07) ∉ t →
      (instr2 &&& 0x07) ∉ t2) ∧
    r ∉ (innerScanS fw prev data offs t ev).1 := by
  refine ⟨innerStep_shrinks _ _ _ _ _ _ h1,
    innerScanS_tracked_shrinks _ _ _ _ _ _, ?_, ?_, ?_, ?_, ?_, ?_⟩
  · intro hne
    rcases innerStep_ev_cases _ _ _ _ _ _ h1 with he | ⟨addr, acc, _, _, _, hmem⟩
    · exact absurd he hne
    · exact hmem
  · exact fun hm => innerStep_kill_loadlit _ _ _ _ _ _ h2 hm h1
  · exact fun hm => innerStep_kill_movs _ _ _ _ _ _ h2 hm h1
  · exact fun hm => innerStep_kill_subs _ _ _ _ _ _ h2 hm h1
  · exact fun hm hrn => innerStep_kill_ldr_dest _ _ _ _ _ _ h2 hm hrn h1
  · exact fun hc => h3 ((innerScanS_tracked_shrinks _ _ _ _ _ _).subset hc)

/-- Witness for the tracking theorem at a MOVS (`0x2000`) that overwrites
the single tracked register r0. -/
theorem tracked_register_kill_witness :
    ([] : List Nat).Sublist [0] ∧
    ((innerScanS [] 0 0 [] [0] []).1).Sublist [0] ∧
    (([] : List Ev) ≠ [] → (((0x2000 : Nat) >>> 3) &&& 0x07) ∈ ([0] : List Nat)) ∧
    ((0x2000 : Nat) &&& 0xF800 = 0x4800 →
      (((0x2000 : Nat) >>> 8) &&& 0x07) ∉ ([] : List Nat)) ∧
    ((0x2000 : Nat) &&& 0xF800 = 0x2000 →
      (((0x2000 : Nat) >>> 8) &&& 0x07) ∉ ([] : List Nat)) ∧
    ((0x2000 : Nat) &&& 0xFE00 = 0x1A00 →
      ((0x2000 : Nat) &&& 0x07) ∉ ([] : List Nat)) ∧
    ((0x2000 : Nat) &&& 0xF800 = 0x6800 →
      (((0x2000 : Nat) >>> 3) &&& 0x07) ∉ ([0] : List Nat) →
      ((0x2000 : Nat) &&& 0x07) ∉ ([] : List Nat)) ∧
    (5 : Nat) ∉ (innerScanS [] 0 0 [] [0] []).1 :=
  tracked_register_kill 0 0x2000 [0] [] [] [] [] 0 [] 5 (by decide) (by decide)
    (by decide)


lemma mem_dictKeys_dictInsert {d : DeviceDict} {k k2 : Nat} {v : List Hit} :
    k2 ∈ dictKeys (dictInsert d k v) ↔ k2 = k ∨ k2 ∈ dictKeys d := by
  unfold dictInsert
  by_cases hk : k ∈ dictKeys d
  · have hany : d.any (fun p => p.1 == k) = true := by
      rcases List.mem_map.mp hk with ⟨p, hp, hpk⟩
      exact List.any_eq_true.mpr ⟨p, hp, by simp [hpk]⟩
    rw [if_pos hany]
    have hkeys : dictKeys (d.map (fun p => if p.1 == k then (k, v) else p)) = dictKeys d := by
      unfold dictKeys
      rw [List.map_map]
      apply List.map_congr_left
      intro p hp
      by_cases hpk : p.1 = k
      · simp [Function.comp, hpk]
      · simp [Function.comp, hpk]
    rw [hkeys]
    constructor
    · exact fun h => Or.inr h
    · rintro (rfl | h)
      · exact hk
      · exact h
  · have hany : d.any (fun p => p.1 == k) = false := by
      rw [List.any_eq_false]
      intro p hp
      simp only [beq_iff_eq]
      intro hpk
      exact hk (List.mem_map.mpr ⟨p, hp, hpk⟩)
    rw [if_neg (by rw [hany]; exact Bool.false_ne_true)]
    unfold dictKeys
    rw [List.map_append]
    simp [or_comm]

lemma nodup_dictKeys_dictInsert {d : DeviceDict} {k : Nat} {v : List Hit}
    (h : (dictKeys d).Nodup) : (dictKeys (dictInsert d k v)).Nodup := by
  unfold dictInsert
  by_cases hk : k ∈ dictKeys d
  · have hany : d.any (fun p => p.1 == k) = true := by
      rcases List.mem_map.mp hk with ⟨p, hp, hpk⟩
      exact List.any_eq_true.mpr ⟨p, hp, by simp [hpk]⟩
    rw [if_pos hany]
    have hkeys : dictKeys (d.map (fun p => if p.1 == k then (k, v) else p)) = dictKeys d := by
      unfold dictKeys
      rw [List.map_map]
      apply List.map_congr_left
      intro p hp
      by_cases hpk : p.1 = k
      · simp [Function.comp, hpk]
      · simp [Function.comp, hpk]
    rw [hkeys]
    exact h
  · have hany : d.any (fun p => p.1 == k) = false := by
      rw [List.any_eq_false]
      intro p hp
      simp only [beq_iff_eq]
      intro hpk
      exact hk (List.mem_map.mpr ⟨p, hp, hpk⟩)
    rw [if_neg (by rw [hany]; exact Bool.false_ne_true)]
    unfold dictKeys
    rw [List.map_append]
    simp [List.nodup_append]
    exact ⟨h, fun x hx => hk (List.mem_map.mpr ⟨(k, x), hx, rfl⟩)⟩


lemma foldl_dictInsert_mem (access : Access) :
    ∀ (rows : List Row) (acc : DeviceDict) (dev : Nat),
      dev ∈ dictKeys (rows.foldl (fun d r =>
          dictInsert d r.device_id [⟨r.peripheral_name, r.register_name, access⟩]) acc) ↔
        (dev ∈ dictKeys acc ∨ ∃ r ∈ rows, r.device_id = dev) := by
  intro rows
  induction rows with
  | nil => intro acc dev; simp
  | cons r rest ih =>
    intro acc dev
    rw [List.foldl_cons, ih, mem_dictKeys_dictInsert]
    simp only [List.mem_cons]
    constructor
    · rintro ((rfl | hacc) | ⟨r2, hr2, hid⟩)
      · exact Or.inr ⟨r, Or.inl rfl, rfl⟩
      · exact Or.inl hacc
      · exact Or.inr ⟨r2, Or.inr hr2, hid⟩
    · rintro (hacc | ⟨r2, (rfl | hr2), hid⟩)
      · exact Or.inl (Or.inr hacc)
      · exact Or.inl (Or.inl hid.symm)
      · exact Or.inr ⟨r2, hr2, hid⟩

lemma foldl_dictInsert_nodup (access : Access) :
    ∀ (rows : List Row) (acc : DeviceDict), (dictKeys acc).Nodup →
      (dictKeys (rows.foldl (fun d r =>
        dictInsert d r.device_id [⟨r.peripheral_name, r.register_name, access⟩]) acc)).Nodup := by
  intro rows
  induction rows with
  | nil => intro acc h; exact h
  | cons r rest ih =>
    intro acc h
    rw [List.foldl_cons]
    exact ih _ (nodup_dictKeys_dictInsert h)

lemma mem_keys_fdbr (cat : List Row) (addr : Nat) (a : Access) (dev : Nat) :
    dev ∈ dictKeys (find_devices_by_register cat addr a) ↔
      devMatches cat dev addr = true := by
  unfold find_devices_by_register devMatches
  rw [foldl_dictInsert_mem]
  simp only [dictKeys, List.map_nil, List.not_mem_nil, false_or, List.mem_filter,
    List.any_eq_true, Bool.and_eq_true, beq_iff_eq]
  constructor
  · rintro ⟨r, ⟨hr, hmatch⟩, hid⟩
    exact ⟨r, hr, hid, hmatch⟩
  · rintro ⟨r, hr, hid, hmatch⟩
    exact ⟨r, ⟨hr, hmatch⟩, hid⟩

lemma nodup_keys_fdbr (cat : List Row) (addr : Nat) (a : Access) :
    (dictKeys (find_devices_by_register cat addr a)).Nodup := by
  unfold find_devices_by_register
  exact foldl_dictInsert_nodup a _ [] (by simp [dictKeys])

lemma dictGet_isSome_iff (d : DeviceDict) (k : Nat) :
    (dictGet d k).isSome = true ↔ k ∈ dictKeys d := by
  unfold dictGet dictKeys
  have hmap : (Option.map (fun p => p.2) (d.find? (fun p => p.1 == k))).isSome
      = (d.find? (fun p => p.1 == k)).isSome := by
    cases d.find? (fun p => p.1 == k) <;> rfl
  rw [hmap, List.find?_isSome]
  simp [beq_iff_eq, List.mem_map]

lemma mergeSome_keys_aux (d2 : DeviceDict) :
    ∀ d1 : DeviceDict,
      dictKeys (d1.filterMap (fun p =>
        match dictGet d2 p.1 with
        | none => none
        | some v2 => some (p.1, p.2 ++ v2))) =
      (dictKeys d1).filter (fun k => (dictGet d2 k).isSome) := by
  intro d1
  induction d1 with
  | nil => rfl
  | cons p rest ih =>
    simp only [dictKeys] at ih ⊢
    rw [List.filterMap_cons, List.map_cons, List.filter_cons]
    cases hg : dictGet d2 p.1 with
    | none =>
      simp only [hg, Option.isSome_none, Bool.false_eq_true, if_false]
      exact ih
    | some v2 =>
      simp only [hg, Option.isSome_some, if_true, List.map_cons]
      rw [ih]

lemma mergeSome_keys (d1 d2 : DeviceDict) :
    dictKeys (dict_intersection_merge (some d1) d2) =
      (dictKeys d1).filter (fun k => (dictGet d2 k).isSome) :=
  mergeSome_keys_aux d2 d1


/-- C5: one matcher step from a narrowed state yields a narrowed state
whose key set is a subset of, and no longer than, the previous one; an
evidence item whose lookup misses the catalog leaves any running state
exactly unchanged, and one whose intersection would be empty leaves the
narrowed state exactly unchanged (same device ids and same hit lists). -/
theorem matcher_step_monotone (cat : List Row) (d : DeviceDict) (e : Ev) :
    (∃ d2, findDevicesStep cat (some d) e = some d2 ∧
      dictKeys d2 ⊆ dictKeys d ∧ (dictKeys d2).length ≤ (dictKeys d).length) ∧
    (find_devices_by_register cat e.1 e.2 = [] → ∀ st, findDevicesStep cat st e = st) ∧
    (dict_intersection_merge (some d) (find_devices_by_register cat e.1 e.2) = [] →
      findDevicesStep cat (some d) e = some d) := by
  refine ⟨?_, ?_, ?_⟩
  · unfold findDevicesStep
    by_cases hm : find_devices_by_register cat e.1 e.2 = []
    · rw [if_pos hm]
      exact ⟨d, rfl, fun x hx => hx, le_refl _⟩
    · rw [if_neg hm]
      by_cases hn : dict_intersection_merge (some d) (find_devices_by_register cat e.1 e.2) = []
      · rw [if_pos hn]
        exact ⟨d, rfl, fun x hx => hx, le_refl _⟩
      · rw [if_neg hn]
        refine ⟨_, rfl, ?_, ?_⟩
        · rw [mergeSome_keys]
          exact List.filter_subset' _
        · rw [mergeSome_keys]
          exact List.length_filter_le _ _
  · intro hm st
    unfold findDevicesStep
    rw [if_pos hm]
  · intro hn
    unfold findDevicesStep
    by_cases hm : find_devices_by_register cat e.1 e.2 = []
    · rw [if_pos hm]
    · rw [if_neg hm, if_pos hn]

lemma matchesAll_cons (cat : List Row) (dev : Nat) (e : Ev) (rest : List Ev) :
    matchesAll cat dev (e :: rest)
      = (devMatches cat dev e.1 && matchesAll cat dev rest) := rfl

lemma nodup_singleton_of_mem_iff {l : List Nat} {a : Nat} (hn : l.Nodup)
    (hmem : ∀ x, x ∈ l ↔ x = a) : l = [a] := by
  cases l with
  | nil => exact absurd ((hmem a).mpr rfl) (List.not_mem_nil a)
  | cons x xs =>
    have hx : x = a := (hmem x).mp (List.mem_cons_self x xs)
    subst hx
    have hxs : xs = [] := by
      cases xs with
      | nil => rfl
      | cons y ys =>
        have hy : y = x := (hmem y).mp (by simp)
        rw [List.nodup_cons] at hn
        exact (hn.1 (by simp [hy.symm])).elim
    rw [hxs]

lemma find_devices_fold_inv (cat : List Row) (D : Nat) :
    ∀ (es : List Ev) (d : DeviceDict),
      (dictKeys d).Nodup → D ∈ dictKeys d → matchesAll cat D es = true →
      ∃ d2, List.foldl (findDevicesStep cat) (some d) es = some d2 ∧
        (dictKeys d2).Nodup ∧
        (∀ dev, dev ∈ dictKeys d2 ↔
          (dev ∈ dictKeys d ∧ matchesAll cat dev es = true)) := by
  intro es
  induction es with
  | nil =>
    intro d hn hD _
    exact ⟨d, rfl, hn, fun dev => by simp [matchesAll]⟩
  | cons e rest ih =>
    intro d hn hD hall
    rw [matchesAll_cons, Bool.and_eq_true] at hall
    have hDm : D ∈ dictKeys (find_devices_by_register cat e.1 e.2) :=
      (mem_keys_fdbr _ _ _ _).mpr hall.1
    have hmne : ¬ find_devices_by_register cat e.1 e.2 = [] := by
      intro h0
      rw [h0] at hDm
      simp [dictKeys] at hDm
    have hDn : D ∈ dictKeys (dict_intersection_merge (some d)
        (find_devices_by_register cat e.1 e.2)) := by
      rw [mergeSome_keys, List.mem_filter]
      exact ⟨hD, (dictGet_isSome_iff _ _).mpr hDm⟩
    have hnne : ¬ dict_intersection_merge (some d)
        (find_devices_by_register cat e.1 e.2) = [] := by
      intro h0
      rw [h0] at hDn
      simp [dictKeys] at hDn
    rw [List.foldl_cons]
    have hstep : findDevicesStep cat (some d) e
        = some (dict_intersection_merge (some d)
            (find_devices_by_register cat e.1 e.2)) := by
      unfold findDevicesStep
      rw [if_neg hmne, if_neg hnne]
    rw [hstep]
    have hnodup2 : (dictKeys (dict_intersection_merge (some d)
        (find_devices_by_register cat e.1 e.2))).Nodup := by
      rw [mergeSome_keys]
      exact hn.filter _
    obtain ⟨d2, hfold, hnd2, hiff⟩ := ih _ hnodup2 hDn hall.2
    refine ⟨d2, hfold, hnd2, fun dev => ?_⟩
    rw [hiff dev, mergeSome_keys, List.mem_filter, matchesAll_cons, Bool.and_eq_true]
    constructor
    · rintro ⟨⟨hdd, hsome⟩, hrest⟩
      exact ⟨hdd, (mem_keys_fdbr _ _ _ _).mp ((dictGet_isSome_iff _ _).mp hsome), hrest⟩
    · rintro ⟨hdd, h1, h2⟩
      exact ⟨⟨hdd, (dictGet_isSome_iff _ _).mpr ((mem_keys_fdbr _ _ _ _).mpr h1)⟩, h2⟩

/-- C3 amended: for a nonempty evidence list, if device `D` passes the
lookup (the WHERE clause of `find_devices_by_register`, coarse pre-filter
included) for every evidence pair and every other device of the catalog
fails it on some pair, then `find_devices` ends with exactly `D` as the
sole candidate. -/
theorem unique_lookup_cover_sole_candidate (cat : List Row) (D : Nat)
    (e : Ev) (es : List Ev)
    (hD : matchesAll cat D (e :: es) = true)
    (huniq : (cat.map (fun r => r.device_id)).all
        (fun dev => !(matchesAll cat dev (e :: es)) || dev == D) = true) :
    ∃ d, find_devices cat (e :: es) = some d ∧ dictKeys d = [D] := by
  have hDfull := hD
  rw [matchesAll_cons, Bool.and_eq_true] at hD
  have hDm : D ∈ dictKeys (find_devices_by_register cat e.1 e.2) :=
    (mem_keys_fdbr _ _ _ _).mpr hD.1
  have hmne : ¬ find_devices_by_register cat e.1 e.2 = [] := by
    intro h0
    rw [h0] at hDm
    simp [dictKeys] at hDm
  unfold find_devices
  rw [List.foldl_cons]
  have hstep1 : findDevicesStep cat none e
      = some (find_devices_by_register cat e.1 e.2) := by
    unfold findDevicesStep
    rw [if_neg hmne]
    show (if find_devices_by_register cat e.1 e.2 = [] then none
      else some (find_devices_by_register cat e.1 e.2)) = _
    rw [if_neg hmne]
  rw [hstep1]
  obtain ⟨d2, hfold, hnd2, hiff⟩ :=
    find_devices_fold_inv cat D es _ (nodup_keys_fdbr _ _ _) hDm hD.2
  refine ⟨d2, hfold, ?_⟩
  apply nodup_singleton_of_mem_iff hnd2
  intro x
  rw [hiff x]
  constructor
  · rintro ⟨hxm, hxall⟩
    have hxe : devMatches cat x e.1 = true := (mem_keys_fdbr _ _ _ _).mp hxm
    have hxfull : matchesAll cat x (e :: es) = true := by
      rw [matchesAll_cons, Bool.and_eq_true]
      exact ⟨hxe, hxall⟩
    have hxcat : x ∈ cat.map (fun r => r.device_id) := by
      rcases List.any_eq_true.mp hxe with ⟨r, hr, hpred⟩
      rw [Bool.and_eq_true, beq_iff_eq] at hpred
      exact List.mem_map.mpr ⟨r, hr, hpred.1⟩
    have hx := List.all_eq_true.mp huniq x hxcat
    rw [Bool.or_eq_true, Bool.not_eq_eq_eq_not, beq_iff_eq] at hx
    rcases hx with hbad | heq
    · rw [hxfull] at hbad
      exact Bool.noConfusion hbad
    · exact heq
  · rintro rfl
    exact ⟨hDm, hD.2⟩

/-- Witness: on `catTwo`, device 1 is the unique device whose register
covers the single read at `0x40000000`, and the matcher ends with it. -/
theorem unique_lookup_cover_sole_candidate_witness :
    ∃ d, find_devices catTwo [(0x40000000, Access.read)] = some d ∧ dictKeys d = [1] :=
  unique_lookup_cover_sole_candidate catTwo 1 (0x40000000, Access.read) []
    (by decide) (by decide)

/-- C9 amended: the outer scan visits exactly the even offsets from 2 up
to the end of the image (offset 0 is excluded); `find_used_registers`
folds over those offsets, and a visited halfword that is not a literal
load leaves the evidence unchanged (the scan merely advances). -/
theorem outer_scan_offsets (fw : List Nat) (ev : List Ev) (o : Nat)
    (h1 : o % 2 = 0) (h2 : 2 ≤ o) (h3 : o < fw.length) :
    o ∈ pyRange2 2 fw.length ∧
    usedRegistersList fw = (pyRange2 2 fw.length).foldl (outerStep fw) [] ∧
    (¬ u16 fw o &&& 0xF800 = 0x4800 → outerStep fw ev o = ev) := by
  refine ⟨?_, rfl, ?_⟩
  · unfold pyRange2
    rw [List.mem_map]
    refine ⟨(o - 2) / 2, ?_, ?_⟩
    · rw [List.mem_range]
      omega
    · omega
  · intro hno
    unfold outerStep
    rw [if_neg hno]

/-- Witness for the scan-offset theorem at offset 2 of `fwTwo`. -/
theorem outer_scan_offsets_witness :
    (2 : Nat) ∈ pyRange2 2 fwTwo.length ∧
    usedRegistersList fwTwo = (pyRange2 2 fwTwo.length).foldl (outerStep fwTwo) [] ∧
    (¬ u16 fwTwo 2 &&& 0xF800 = 0x4800 → outerStep fwTwo [] 2 = []) :=
  outer_scan_offsets fwTwo [] 2 (by decide) (by decide) (by decide)

end Chiprec
